import Mathlib

/-!
Shallow embedding of `news_ticker.py` (Discourse news-ticker updater).

The script polls Discourse topics for new `# …` headlines, keeps the 7 most
recent unique ones, pushes them to a theme setting and persists a checkpoint
state.  Machine strings are Lean `String`s (Python 3 compares strings by code
point, as Lean does); Python `None`-able fields are `Option`; the fallible
parts (dict key lookup, `sorted` on incomparable keys, HTTP transport) are
modelled with `Except`.

Whitespace and line splitting follow Python's semantics restricted to the
whitespace code points listed in `isPySpace` / `isLineBreak` (the common
Unicode whitespace set used by `str.strip`, `str.splitlines` and `re`'s
`\s` class).
-/

namespace NewsTicker

/-- Python exception kinds that the script can raise on the paths we model:
`KeyError` from `cfg[...]` dictionary access, `TypeError` from `sorted` when
`None` is compared with `str`, and any `requests` transport failure
(`raise_for_status`, timeouts, connection errors). -/
inductive PyErr where
  | keyError
  | typeError
  | transportError
deriving DecidableEq, Repr

/-- Line-break characters recognised by Python's `str.splitlines`:
LF, CR, VT, FF, FS, GS, RS, NEL, LINE SEPARATOR, PARAGRAPH SEPARATOR
(CRLF is treated as a single break by `splitLinesAux`). -/
def isLineBreak (c : Char) : Bool :=
  c = '\n' || c = '\r' || c.val = 11 || c.val = 12 ||
  c.val = 28 || c.val = 29 || c.val = 30 || c.val = 133 ||
  c.val = 0x2028 || c.val = 0x2029

/-- Whitespace characters as recognised by Python's `str.strip` and by the
`\s` class of `re` on `str` patterns (Unicode whitespace). -/
def isPySpace (c : Char) : Bool :=
  c = ' ' || c = '\t' || c = '\n' || c = '\r' || c.val = 11 || c.val = 12 ||
  (28 ≤ c.val && c.val ≤ 31) || c.val = 133 || c.val = 160 ||
  c.val = 0x1680 || (0x2000 ≤ c.val && c.val ≤ 0x200a) ||
  c.val = 0x2028 || c.val = 0x2029 || c.val = 0x202f || c.val = 0x205f ||
  c.val = 0x3000

/-- Worker for `pySplitlines`: accumulates the current line (reversed) and
splits at every line-break character, treating CRLF as one break.  Like
Python's `str.splitlines`, a trailing fragment is emitted only when
non-empty (so a trailing newline does not create an extra empty line). -/
def splitLinesAux : List Char → List Char → List (List Char)
  | '\r' :: '\n' :: cs, acc => acc.reverse :: splitLinesAux cs []
  | c :: cs, acc =>
    if isLineBreak c then acc.reverse :: splitLinesAux cs []
    else splitLinesAux cs (c :: acc)
  | [], acc => if acc = [] then [] else [acc.reverse]

/-- Python `str.splitlines` (line 93 of the script: `raw.splitlines()`). -/
def pySplitlines (s : String) : List String :=
  (splitLinesAux s.data []).map String.mk

/-- Python `str.strip()`: remove leading and trailing whitespace. -/
def pyStrip (s : String) : String :=
  String.mk (((s.data.dropWhile isPySpace).reverse.dropWhile isPySpace).reverse)

/-- Model of `HEADING.match(s)` for `HEADING = re.compile(r"^#\s+(.+)$")` (line 78),
returning `group(1)` on a match.  The script only applies it to single lines
produced by `splitlines` and then stripped, so the input contains no
line-break characters; under that assumption the regex matches exactly when
the string is `'#'`, then one or more whitespace characters, then a
non-empty remainder, and `group(1)` is the remainder after the maximal
whitespace run (with a backtracking corner case when nothing follows the
whitespace, which is unreachable for stripped input). -/
def headingMatch (s : String) : Option String :=
  match s.data with
  | '#' :: rest =>
    let w := rest.takeWhile isPySpace
    let body := rest.dropWhile isPySpace
    if w = [] then none
    else if body ≠ [] then some (String.mk body)
    else if 2 ≤ w.length then (w.getLast?).map (fun c => String.mk [c])
    else none
  | _ => none

/-- Lines 92–99 of the script: scan `raw.splitlines()` in order, stop at the
first line whose stripped form matches `HEADING`, return `group(1).strip()`;
a post whose first match strips to the empty string is skipped
(`if not title: continue`), as is a post with no matching line. -/
def extractHeadline (raw : String) : Option String :=
  match (pySplitlines raw).findSome? (fun line => headingMatch (pyStrip line)) with
  | none => none
  | some g => if pyStrip g = "" then none else some (pyStrip g)

/-- A fetched post: `p.get("post_number", 0)`, `p.get("raw", "")` and
`p.get("created_at", "")` mean every field may be absent. -/
structure Post where
  post_number : Option Nat
  raw : Option String
  created_at : Option String
deriving DecidableEq, Repr

/-- Line 100: `f"{cfg['base_url']}/t/{tid}/{pn}"`. -/
def mkUrl (base_url : String) (tid pn : Nat) : String :=
  base_url ++ "/t/" ++ toString tid ++ "/" ++ toString pn

/-- Line 101: `f'<a href="{url}">{title}</a>'`. -/
def mkItem (url title : String) : String :=
  "<a href=" ++ "\"" ++ url ++ "\"" ++ ">" ++ title ++ "</a>"

/-- A `(when, item)` candidate pair as built on lines 102–105; the timestamp
is `none` only for the previous-marquee entries added on line 122. -/
abbrev Pair := Option String × String

/-- Lines 87–105 for a single post: skip `post_number == 1`, extract a
headline from the raw body, and if one is found return the post number and
the `(created_at, item)` pair. -/
def postCandidate (base_url : String) (tid : Nat) (p : Post) :
    Option (Nat × Pair) :=
  let pn := p.post_number.getD 0
  if pn = 1 then none
  else
    match extractHeadline (p.raw.getD "") with
    | none => none
    | some title =>
      some (pn, (some (p.created_at.getD ""), mkItem (mkUrl base_url tid pn) title))

/-- The per-topic post loop (lines 87–105): returns the contributions of
`posts` to `all_candidates` and `new_candidates`, given `seen`
(`state["last_seen"].get(str(tid), 0)`). -/
def collectTopic (base_url : String) (tid : Nat) (seen : Nat) :
    List Post → List Pair × List Pair
  | [] => ([], [])
  | p :: ps =>
    let rest := collectTopic base_url tid seen ps
    match postCandidate base_url tid p with
    | none => rest
    | some (pn, pr) =>
      (pr :: rest.1, if seen < pn then pr :: rest.2 else rest.2)

/-- Python dict `.get(k, dft)` on a string-keyed association list. -/
def dictGet (d : List (String × Nat)) (k : String) (dft : Nat) : Nat :=
  match d with
  | [] => dft
  | (k', v) :: rest => if k' = k then v else dictGet rest k dft

/-- Python dict assignment `d[k] = v`: overwrite the value in place when the
key exists (dict keys are unique), otherwise append (insertion order
preserved). -/
def dictSet : List (String × Nat) → String → Nat → List (String × Nat)
  | [], k, v => [(k, v)]
  | (k', v') :: rest, k, v =>
    if k' = k then (k, v) :: rest else (k', v') :: dictSet rest k v

/-- Line 108: `max(p.get("post_number", 0) for p in posts)` for the
non-empty list `p :: ps`. -/
def maxPostNumber (p : Post) (ps : List Post) : Nat :=
  ps.foldl (fun m q => max m (q.post_number.getD 0)) (p.post_number.getD 0)

/-- Lines 107–108: update `state["last_seen"][str(tid)]` to the maximum
fetched post number, only when at least one post was fetched. -/
def stepLastSeen (ls : List (String × Nat)) (tid : Nat) (posts : List Post) :
    List (String × Nat) :=
  match posts with
  | [] => ls
  | p :: ps => dictSet ls (toString tid) (maxPostNumber p ps)

/-- Sort key of a candidate pair (`lambda x: x[0]` on line 113); only
meaningful when the timestamp is present — `pySorted` raises before this
default is ever relevant. -/
def pairKey (x : Pair) : String := x.1.getD ""

/-- One step of the stable descending insertion used to realise Python's
`sorted(..., reverse=True)`: the new element goes before the first existing
element with a strictly smaller key, hence after all earlier elements with
an equal key (stability). -/
def insertDesc (x : Pair) : List Pair → List Pair
  | [] => [x]
  | y :: ys => if pairKey y < pairKey x then x :: y :: ys else y :: insertDesc x ys

/-- Stable descending sort by `pairKey` (the order CPython's stable
`sorted(pairs, key=lambda x: x[0], reverse=True)` produces on all-string
keys). -/
def sortDesc (l : List Pair) : List Pair :=
  l.foldl (fun acc x => insertDesc x acc) []

/-- Python 3 `sorted(pairs, key=lambda x: x[0], reverse=True)` (line 113).
With two or more elements every element's key takes part in at least one
comparison, and any comparison involving `None` raises `TypeError`
(`'<' not supported between instances of 'NoneType' and 'str'`); with at
most one element no comparison happens and the list is returned as is. -/
def pySorted (pairs : List Pair) : Except PyErr (List Pair) :=
  if pairs.length ≤ 1 then .ok pairs
  else if pairs.any (fun x => x.1.isNone) then .error .typeError
  else .ok (sortDesc pairs)

/-- Lines 113–118: walk the sorted items, keep an item when it is not in
`seen_items`, and break as soon as `result` reaches `limit` entries. -/
def uniqLoop (limit : Nat) (seenItems : List String) (acc : List String) :
    List String → List String
  | [] => acc
  | itm :: rest =>
    if itm ∈ seenItems then uniqLoop limit seenItems acc rest
    else if acc.length + 1 = limit then acc ++ [itm]
    else uniqLoop limit (itm :: seenItems) (acc ++ [itm]) rest

/-- Function `uniq_limit(pairs, limit)` of the script (lines 110–119). -/
def uniq_limit (pairs : List Pair) (limit : Nat) : Except PyErr (List String) :=
  match pySorted pairs with
  | .error e => .error e
  | .ok sortedPairs => .ok (uniqLoop limit [] [] (sortedPairs.map Prod.snd))

/-- Specification-side companion of `uniqLoop`: drop items already in
`seenItems` and later duplicates, keeping first occurrences. -/
def dedupKeepFirst (seenItems : List String) : List String → List String
  | [] => []
  | x :: xs =>
    if x ∈ seenItems then dedupKeepFirst seenItems xs
    else x :: dedupKeepFirst (x :: seenItems) xs

/-- Lines 121–125: the merge policy.  When `new_candidates` is non-empty the
input is `new_candidates` followed by the previous marquee entries paired
with `None`; otherwise `all_candidates` alone. -/
def selectDesired (newC allC : List Pair) (marquee : List String) :
    Except PyErr (List String) :=
  if newC ≠ [] then
    uniq_limit (newC ++ marquee.map (fun i => ((none : Option String), i))) 7
  else uniq_limit allC 7

/-- The configuration record; every field may be missing from the JSON file,
in which case `cfg[...]` raises `KeyError` at its point of use. -/
structure Config where
  base_url : Option String
  api_key : Option String
  api_username : Option String
  component_id : Option String
  topics : Option (List Nat)
deriving DecidableEq, Repr

/-- The persisted state record (`load_state` defaults: empty checkpoint map
and empty marquee). -/
structure St where
  last_seen : List (String × Nat)
  marquee : List String
deriving DecidableEq, Repr

/-- Externally observable effects of a run, in order: each issued read call
(`requests.get` in `get_posts`), the one write call (`requests.put` in
`update_ticker`) with the pipe-joined value, and the final `save_state`. -/
inductive Eff where
  | fetch (tid : Nat)
  | push (value : String)
  | save (st : St)
deriving DecidableEq, Repr

/-- The per-topic loop of `main` (lines 83–108).  `fetch` is the Forum
Client: `.error` means the read call raised (connection failure, timeout or
`raise_for_status`).  `cfg["base_url"]` is evaluated at each iteration
before the request is issued; the request itself is recorded as an effect
even when it fails. -/
def runLoop (baseUrl : Option String) (fetch : Nat → Except Unit (List Post))
    (tids : List Nat) (st : St) (allC newC : List Pair) (tr : List Eff) :
    List Eff × Except PyErr (St × List Pair × List Pair) :=
  match tids with
  | [] => (tr, .ok (st, allC, newC))
  | tid :: rest =>
    match baseUrl with
    | none => (tr, .error .keyError)
    | some bu =>
      match fetch tid with
      | .error _ => (tr ++ [Eff.fetch tid], .error .transportError)
      | .ok posts =>
        let c := collectTopic bu tid (dictGet st.last_seen (toString tid) 0) posts
        runLoop baseUrl fetch rest
          { st with last_seen := stepLastSeen st.last_seen tid posts }
          (allC ++ c.1) (newC ++ c.2) (tr ++ [Eff.fetch tid])

/-- Lines 121–130 after the loop: compute `desired`, then `update_ticker`
(which evaluates `cfg['base_url']` and `cfg['component_id']` while building
the URL, issues the PUT of the `|`-joined items, and raises on a non-2xx
response), then set `state["marquee"]` and `save_state`.  `pushOk` is
whether the write call succeeds. -/
def runAfterLoop (cfg : Config) (pushOk : Bool) (st1 : St)
    (allC newC : List Pair) (tr : List Eff) : List Eff × Except PyErr St :=
  match selectDesired newC allC st1.marquee with
  | .error e => (tr, .error e)
  | .ok desired =>
    match cfg.base_url, cfg.component_id with
    | none, _ => (tr, .error .keyError)
    | some _, none => (tr, .error .keyError)
    | some _, some _ =>
      if pushOk then
        (tr ++ [Eff.push (String.intercalate "|" desired),
                Eff.save { st1 with marquee := desired }],
         .ok { st1 with marquee := desired })
      else
        (tr ++ [Eff.push (String.intercalate "|" desired)], .error .transportError)

/-- Function `main()` of the script (lines 73–130), from the point where config and state are
loaded: returns the trace of effects together with either the state passed
to `save_state` or the exception that aborted the run.  `cfg["api_key"]`
and `cfg["api_username"]` are evaluated on line 77, `cfg["topics"]` on
line 83, before any network call. -/
def main (cfg : Config) (st : St) (fetch : Nat → Except Unit (List Post))
    (pushOk : Bool) : List Eff × Except PyErr St :=
  match cfg.api_key, cfg.api_username with
  | none, _ => ([], .error .keyError)
  | some _, none => ([], .error .keyError)
  | some _, some _ =>
    match cfg.topics with
    | none => ([], .error .keyError)
    | some tids =>
      match runLoop cfg.base_url fetch tids st [] [] [] with
      | (tr, .error e) => (tr, .error e)
      | (tr, .ok (st1, allC, newC)) => runAfterLoop cfg pushOk st1 allC newC tr

/-- Concrete full configuration used by closed instantiations. -/
def cfgFull : Config :=
  { base_url := some "B", api_key := some "k", api_username := some "u",
    component_id := some "c", topics := some [42] }

/-- Configuration `cfgFull` with the `component_id` field missing. -/
def cfgNoComp : Config := { cfgFull with component_id := none }

/-- Configuration `cfgFull` with the `api_key` field missing. -/
def cfgNoKey : Config := { cfgFull with api_key := none }

/-- The first-run state: empty checkpoint map, empty marquee. -/
def st0 : St := { last_seen := [], marquee := [] }

/-- Concrete candidate list exercising `uniq_limit`: ten timestamped pairs
with one duplicated item and nine distinct items. -/
def cPairs : List Pair :=
  [(some "5", "e"), (some "3", "c"), (some "3", "c"), (some "9", "i"),
   (some "1", "a"), (some "2", "b"), (some "8", "h"), (some "7", "g"),
   (some "6", "f"), (some "4", "d")]

section Lemmas

/-- Loop characterisation: `uniqLoop` keeps the first occurrence of each item not yet seen, in
order, and stops at `limit` collected items. -/
theorem uniqLoop_eq (limit : Nat) (l : List String) :
    ∀ (seenItems acc : List String), acc.length < limit →
      uniqLoop limit seenItems acc l =
        acc ++ (dedupKeepFirst seenItems l).take (limit - acc.length) := by
  induction l with
  | nil => intro s acc _; simp [uniqLoop, dedupKeepFirst]
  | cons x xs ih =>
    intro s acc h
    by_cases hx : x ∈ s
    · rw [uniqLoop, dedupKeepFirst, if_pos hx, if_pos hx]
      exact ih s acc h
    · by_cases hl : acc.length + 1 = limit
      · rw [uniqLoop, dedupKeepFirst, if_neg hx, if_neg hx, if_pos hl]
        have h1 : limit - acc.length = 1 := by omega
        simp [h1]
      · have h2 : (acc ++ [x]).length < limit := by simp; omega
        rw [uniqLoop, dedupKeepFirst, if_neg hx, if_neg hx, if_neg hl, ih _ _ h2]
        have h3 : limit - acc.length = (limit - (acc ++ [x]).length) + 1 := by
          simp; omega
        rw [h3, List.take_succ_cons, List.append_assoc]
        rfl

/-- Members of `dedupKeepFirst seenItems l` come from `l` and are not in
`seenItems`. -/
theorem mem_dedupKeepFirst {x : String} :
    ∀ {seenItems l : List String}, x ∈ dedupKeepFirst seenItems l →
      x ∈ l ∧ x ∉ seenItems := by
  intro s l
  induction l generalizing s with
  | nil => intro h; simp [dedupKeepFirst] at h
  | cons y ys ih =>
    intro h
    rw [dedupKeepFirst] at h
    by_cases hy : y ∈ s
    · rw [if_pos hy] at h
      rcases ih h with ⟨h1, h2⟩
      exact ⟨List.mem_cons_of_mem _ h1, h2⟩
    · rw [if_neg hy] at h
      rcases List.mem_cons.mp h with rfl | h'
      · exact ⟨List.mem_cons_self _ _, hy⟩
      · rcases ih h' with ⟨h1, h2⟩
        refine ⟨List.mem_cons_of_mem _ h1, fun hc => h2 ?_⟩
        exact List.mem_cons_of_mem _ hc

/-- Deduplication: `dedupKeepFirst` never yields a duplicate. -/
theorem nodup_dedupKeepFirst :
    ∀ (seenItems l : List String), (dedupKeepFirst seenItems l).Nodup := by
  intro s l
  induction l generalizing s with
  | nil => simp [dedupKeepFirst]
  | cons y ys ih =>
    rw [dedupKeepFirst]
    by_cases hy : y ∈ s
    · rw [if_pos hy]; exact ih s
    · rw [if_neg hy]
      refine List.nodup_cons.mpr ⟨fun hc => ?_, ih (y :: s)⟩
      exact (mem_dedupKeepFirst hc).2 (List.mem_cons_self _ _)

/-- Membership through `insertDesc`. -/
theorem mem_insertDesc {y x : Pair} :
    ∀ {l : List Pair}, y ∈ insertDesc x l ↔ y = x ∨ y ∈ l := by
  intro l
  induction l with
  | nil => simp [insertDesc]
  | cons z zs ih =>
    rw [insertDesc]
    by_cases h : pairKey z < pairKey x
    · rw [if_pos h]; simp
    · rw [if_neg h]
      simp only [List.mem_cons, ih]
      tauto

/-- Insertion produces a permutation of consing. -/
theorem insertDesc_perm (x : Pair) :
    ∀ (l : List Pair), List.Perm (insertDesc x l) (x :: l) := by
  intro l
  induction l with
  | nil => simp [insertDesc]
  | cons z zs ih =>
    rw [insertDesc]
    by_cases h : pairKey z < pairKey x
    · rw [if_pos h]
    · rw [if_neg h]
      exact (List.Perm.cons z ih).trans (List.Perm.swap x z zs)

/-- Insertion preserves descending sortedness by `pairKey`. -/
theorem insertDesc_sorted {x : Pair} :
    ∀ {l : List Pair}, l.Pairwise (fun a b => pairKey b ≤ pairKey a) →
      (insertDesc x l).Pairwise (fun a b => pairKey b ≤ pairKey a) := by
  intro l
  induction l with
  | nil => intro _; simp [insertDesc]
  | cons z zs ih =>
    intro hs
    rcases List.pairwise_cons.mp hs with ⟨hz, hzs⟩
    rw [insertDesc]
    by_cases h : pairKey z < pairKey x
    · rw [if_pos h]
      refine List.pairwise_cons.mpr ⟨?_, hs⟩
      intro b hb
      rcases List.mem_cons.mp hb with rfl | hb'
      · exact le_of_lt h
      · exact le_trans (hz b hb') (le_of_lt h)
    · rw [if_neg h]
      refine List.pairwise_cons.mpr ⟨?_, ih hzs⟩
      intro b hb
      rcases mem_insertDesc.mp hb with rfl | hb'
      · exact not_lt.mp h
      · exact hz b hb'

/-- Sorting permutes the input. -/
theorem sortDesc_perm (l : List Pair) : List.Perm (sortDesc l) l := by
  suffices h : ∀ (l acc : List Pair),
      List.Perm (List.foldl (fun acc x => insertDesc x acc) acc l) (acc ++ l) by
    simpa using h l []
  intro l
  induction l with
  | nil => intro acc; simp
  | cons x xs ih =>
    intro acc
    refine ((ih (insertDesc x acc)).trans ?_)
    refine (((insertDesc_perm x acc).append_right xs).trans ?_)
    exact List.perm_middle.symm

/-- Sorting yields a descending order by `pairKey`. -/
theorem sortDesc_sorted (l : List Pair) :
    (sortDesc l).Pairwise (fun a b => pairKey b ≤ pairKey a) := by
  suffices h : ∀ (l acc : List Pair),
      acc.Pairwise (fun a b => pairKey b ≤ pairKey a) →
      (List.foldl (fun acc x => insertDesc x acc) acc l).Pairwise
        (fun a b => pairKey b ≤ pairKey a) from h l [] (by simp)
  intro l
  induction l with
  | nil => intro acc h; simpa using h
  | cons x xs ih =>
    intro acc h
    exact ih (insertDesc x acc) (insertDesc_sorted h)

/-- Sorting a list of at most one element returns it unchanged. -/
theorem sortDesc_short {l : List Pair} (h : l.length ≤ 1) : sortDesc l = l := by
  match l with
  | [] => rfl
  | [x] => rfl
  | x :: y :: xs => simp at h

/-- On all-timestamped input Python's `sorted` succeeds and returns the
stable descending order. -/
theorem pySorted_ok {pairs : List Pair}
    (h : ∀ x ∈ pairs, x.1.isSome = true) :
    pySorted pairs = .ok (sortDesc pairs) := by
  have hnone : (pairs.any fun x => x.1.isNone) = false := by
    simp only [List.any_eq_false]
    intro x hx
    rcases Option.isSome_iff_exists.mp (h x hx) with ⟨v, hv⟩
    simp [hv]
  rw [pySorted]
  by_cases hl : pairs.length ≤ 1
  · rw [if_pos hl, sortDesc_short hl]
  · rw [if_neg hl, if_neg (by simp [hnone])]

/-- Reading back a key just written. -/
theorem dictGet_dictSet (d : List (String × Nat)) (k : String) (v dft : Nat) :
    dictGet (dictSet d k v) k dft = v := by
  induction d with
  | nil => simp [dictSet, dictGet]
  | cons kv rest ih =>
    obtain ⟨k', v'⟩ := kv
    by_cases hk : k' = k
    · simp [dictSet, dictGet, hk]
    · rw [dictSet, if_neg hk, dictGet, if_neg hk]
      exact ih

/-- The seed of the fold on line 108 never exceeds its result. -/
theorem le_foldl_max (ps : List Post) :
    ∀ acc : Nat,
      acc ≤ ps.foldl (fun m q => max m (q.post_number.getD 0)) acc := by
  induction ps with
  | nil => intro acc; simp
  | cons q qs ih =>
    intro acc
    exact le_trans (le_max_left _ _) (ih (max acc (q.post_number.getD 0)))

/-- Every fetched post number is bounded by the fold on line 108. -/
theorem mem_le_foldl_max {p : Post} {ps : List Post} (h : p ∈ ps) :
    ∀ acc : Nat,
      p.post_number.getD 0 ≤
        ps.foldl (fun m q => max m (q.post_number.getD 0)) acc := by
  induction ps with
  | nil => simp at h
  | cons q qs ih =>
    intro acc
    rcases List.mem_cons.mp h with rfl | h'
    · exact le_trans (le_max_right _ _) (le_foldl_max qs _)
    · exact ih h' _

/-- Every effect emitted by the topic loop is either carried over from the
input trace or a read call; the loop never pushes and never saves. -/
theorem runLoop_trace (baseUrl : Option String)
    (fetch : Nat → Except Unit (List Post)) :
    ∀ (tids : List Nat) (st : St) (allC newC : List Pair) (tr : List Eff),
      ∀ x ∈ (runLoop baseUrl fetch tids st allC newC tr).1,
        x ∈ tr ∨ ∃ t, x = Eff.fetch t := by
  intro tids
  induction tids with
  | nil =>
    intro st allC newC tr x hx
    simp only [runLoop] at hx
    exact Or.inl hx
  | cons tid rest ih =>
    intro st allC newC tr x hx
    cases baseUrl with
    | none =>
      simp only [runLoop] at hx
      exact Or.inl hx
    | some bu =>
      cases hf : fetch tid with
      | error u =>
        simp only [runLoop, hf] at hx
        rcases List.mem_append.mp hx with hx | hx
        · exact Or.inl hx
        · exact Or.inr ⟨tid, List.mem_singleton.mp hx⟩
      | ok posts =>
        simp only [runLoop, hf] at hx
        rcases ih _ _ _ _ x hx with hx' | hx'
        · rcases List.mem_append.mp hx' with h2 | h2
          · exact Or.inl h2
          · exact Or.inr ⟨tid, List.mem_singleton.mp h2⟩
        · exact Or.inr hx'

/-- When the tail of the run succeeds, the trace gains exactly the write
call of the pipe-joined final list followed by the `save_state` of the
returned state, whose marquee is the computed list. -/
theorem runAfterLoop_ok {cfg : Config} {pushOk : Bool} {st1 : St}
    {allC newC : List Pair} {tr tr' : List Eff} {st' : St}
    (h : runAfterLoop cfg pushOk st1 allC newC tr = (tr', .ok st')) :
    tr' = tr ++ [Eff.push (String.intercalate "|" st'.marquee), Eff.save st'] := by
  rw [runAfterLoop] at h
  match hsel : selectDesired newC allC st1.marquee with
  | .error e => rw [hsel] at h; exact absurd h (by simp)
  | .ok desired =>
    rw [hsel] at h
    match hb : cfg.base_url, hc : cfg.component_id with
    | none, _ => rw [hb] at h; exact absurd h (by simp)
    | some b, none => rw [hb, hc] at h; exact absurd h (by simp)
    | some b, some c =>
      rw [hb, hc] at h
      cases pushOk with
      | false => simp at h
      | true =>
        simp only [if_pos, Prod.mk.injEq] at h
        rcases h with ⟨h1, h2⟩
        rw [Except.ok.injEq] at h2
        rw [← h1, ← h2]

/-- On a failed tail, the trace gains at most the write call. -/
theorem runAfterLoop_error {cfg : Config} {pushOk : Bool} {st1 : St}
    {allC newC : List Pair} {tr tr' : List Eff} {e : PyErr}
    (h : runAfterLoop cfg pushOk st1 allC newC tr = (tr', .error e)) :
    ∀ x ∈ tr', x ∈ tr ∨ ∃ v, x = Eff.push v := by
  rw [runAfterLoop] at h
  match hsel : selectDesired newC allC st1.marquee with
  | .error e' =>
    rw [hsel] at h
    simp only [Prod.mk.injEq] at h
    intro x hx
    exact Or.inl (h.1 ▸ hx)
  | .ok desired =>
    rw [hsel] at h
    match hb : cfg.base_url, hc : cfg.component_id with
    | none, _ =>
      rw [hb] at h
      simp only [Prod.mk.injEq] at h
      intro x hx
      exact Or.inl (h.1 ▸ hx)
    | some b, none =>
      rw [hb, hc] at h
      simp only [Prod.mk.injEq] at h
      intro x hx
      exact Or.inl (h.1 ▸ hx)
    | some b, some c =>
      rw [hb, hc] at h
      cases pushOk with
      | true => simp at h
      | false =>
        simp only [Bool.false_eq_true, if_false, Prod.mk.injEq] at h
        intro x hx
        rw [← h.1] at hx
        rcases List.mem_append.mp hx with hx' | hx'
        · exact Or.inl hx'
        · exact Or.inr ⟨_, List.mem_singleton.mp hx'⟩

/-- Splitting `takeWhile`/`dropWhile` across a boundary where the predicate flips. -/
theorem takeWhile_dropWhile_append {p : Char → Bool} :
    ∀ (w r : List Char), (∀ c ∈ w, p c = true) →
      (∀ c0, r.head? = some c0 → p c0 = false) →
      (w ++ r).takeWhile p = w ∧ (w ++ r).dropWhile p = r := by
  intro w
  induction w with
  | nil =>
    intro r _ hr
    cases r with
    | nil => simp
    | cons c0 r' =>
      have := hr c0 rfl
      simp [List.takeWhile_cons, List.dropWhile_cons, this]
  | cons c w' ih =>
    intro r hw hr
    have hc : p c = true := hw c (List.mem_cons_self _ _)
    have := ih r (fun d hd => hw d (List.mem_cons_of_mem _ hd)) hr
    simp [List.takeWhile_cons, List.dropWhile_cons, hc, this.1, this.2]

/-- First-match characterisation: `findSome?` returns the image of the
first element with a `some` image. -/
theorem findSome?_first {α β : Type} (f : α → Option β) :
    ∀ (pre : List α) (x : α) (post : List α) (g : β),
      (∀ l ∈ pre, f l = none) → f x = some g →
      (pre ++ x :: post).findSome? f = some g := by
  intro pre
  induction pre with
  | nil =>
    intro x post g _ hx
    rw [List.nil_append]
    rw [List.findSome?_cons_of_isSome _ (by simp [hx])]
    exact hx
  | cons a pre' ih =>
    intro x post g hpre hx
    rw [List.cons_append]
    rw [List.findSome?_cons_of_isNone _ (by simp [hpre a (List.mem_cons_self _ _)])]
    exact ih x post g (fun l hl => hpre l (List.mem_cons_of_mem _ hl)) hx

end Lemmas

/-- C1 (code bug): when `new_candidates` is non-empty and the previous
published list is non-empty, the merged input mixes string timestamps with
`None`; Python 3's `sorted` then raises `TypeError`, so `uniq_limit` never
returns — the untimestamped entries are not placed after the timestamped
ones, the run aborts before pushing anything.  Exhibited both on the merge
step alone and on a whole run. -/
theorem merge_with_previous_marquee_raises :
    selectDesired [(some "2024-01-01T00:00:00Z", "N")] [] ["Old"] =
      .error .typeError ∧
    main cfgFull { last_seen := [], marquee := ["Old"] }
      (fun _ => .ok [{ post_number := some 2, raw := some "# New",
                       created_at := some "2024-01-01T00:00:00Z" }]) true =
      ([Eff.fetch 42], .error .typeError) :=
  ⟨rfl, rfl⟩

/-- C2 (counterexample): the checkpoint is not monotone over arbitrary fetch
results.  With checkpoint 5 stored for topic 42, a successful run whose
fetch returns only a post numbered 2 rewrites the checkpoint down to 2. -/
theorem checkpoint_decreases_cex :
    (main cfgFull { last_seen := [("42", 5)], marquee := [] }
        (fun _ => .ok [{ post_number := some 2, raw := some "x",
                         created_at := some "t" }]) true).2 =
      .ok { last_seen := [("42", 2)], marquee := [] } ∧ ¬ (5 ≤ 2) :=
  ⟨rfl, by decide⟩

/-- C2 (amended): lines 107–108 leave a topic's checkpoint unchanged when
the fetch returns zero posts, and otherwise set it to the maximum fetched
post number — which is at least the previous checkpoint whenever at least
one fetched post number reaches it (in particular whenever the fetch
returns every post already accounted for). -/
theorem checkpoint_update_spec (ls : List (String × Nat)) (tid : Nat)
    (posts : List Post) :
    (posts = [] → stepLastSeen ls tid posts = ls) ∧
    (∀ p ∈ posts, dictGet ls (toString tid) 0 ≤ p.post_number.getD 0 →
      dictGet ls (toString tid) 0 ≤
        dictGet (stepLastSeen ls tid posts) (toString tid) 0) := by
  constructor
  · intro h
    rw [h, stepLastSeen]
  · intro p hp hle
    cases posts with
    | nil => simp at hp
    | cons q qs =>
      rw [stepLastSeen, dictGet_dictSet]
      refine le_trans hle ?_
      rw [maxPostNumber]
      rcases List.mem_cons.mp hp with rfl | h'
      · exact le_foldl_max qs _
      · exact mem_le_foldl_max h' _

/-- Closed instantiation of `checkpoint_update_spec`: empty fetch leaves the
checkpoint, and a fetch containing post 5 with prior checkpoint 3 does not
decrease it. -/
theorem checkpoint_update_spec_witness :
    stepLastSeen [("1", 3)] 1 [] = [("1", 3)] ∧
    dictGet [("1", 3)] (toString 1) 0 ≤
      dictGet (stepLastSeen [("1", 3)] 1
        [{ post_number := some 5, raw := none, created_at := none }])
        (toString 1) 0 :=
  ⟨(checkpoint_update_spec [("1", 3)] 1 []).1 rfl,
   (checkpoint_update_spec [("1", 3)] 1
      [{ post_number := some 5, raw := none, created_at := none }]).2
     { post_number := some 5, raw := none, created_at := none }
     (List.mem_singleton.mpr rfl) (by decide)⟩

/-- C3: on all-timestamped input `uniq_limit` succeeds and returns the first
occurrences of the distinct rendered items in stable descending-timestamp
order, truncated at 7 — hence at most 7 entries, no duplicate strings,
stopping once 7 distinct items are collected or the input is exhausted. -/
theorem uniq_limit_spec (pairs : List Pair)
    (h : ∀ x ∈ pairs, x.1.isSome = true) :
    ∃ L, uniq_limit pairs 7 = .ok L ∧
      L = (dedupKeepFirst [] ((sortDesc pairs).map Prod.snd)).take 7 ∧
      L.length ≤ 7 ∧ L.Nodup ∧
      (sortDesc pairs).Pairwise (fun a b => pairKey b ≤ pairKey a) ∧
      List.Perm (sortDesc pairs) pairs := by
  refine ⟨(dedupKeepFirst [] ((sortDesc pairs).map Prod.snd)).take 7,
    ?_, rfl, ?_, ?_, sortDesc_sorted pairs, sortDesc_perm pairs⟩
  · simp only [uniq_limit, pySorted_ok h]
    rw [uniqLoop_eq 7 ((sortDesc pairs).map Prod.snd) [] [] (by simp)]
    simp
  · exact List.length_take_le 7 _
  · exact (List.take_sublist 7 _).nodup (nodup_dedupKeepFirst [] _)

/-- Closed instantiation of `uniq_limit_spec` on `cPairs`. -/
theorem uniq_limit_spec_witness :
    (∀ x ∈ cPairs, x.1.isSome = true) ∧
    ∃ L, uniq_limit cPairs 7 = .ok L ∧
      L = (dedupKeepFirst [] ((sortDesc cPairs).map Prod.snd)).take 7 ∧
      L.length ≤ 7 ∧ L.Nodup ∧
      (sortDesc cPairs).Pairwise (fun a b => pairKey b ≤ pairKey a) ∧
      List.Perm (sortDesc cPairs) cPairs :=
  ⟨by decide, uniq_limit_spec cPairs (by decide)⟩

/-- C5: a fetched post whose `post_number` equals 1 is filtered out before
headline extraction: it contributes nothing to `all_candidates` or
`new_candidates`, and the outcome does not depend on its raw body — the
headline extractor is never applied to it. -/
theorem post_one_skipped (base_url : String) (tid seen : Nat) (p : Post)
    (ps : List Post) (h : p.post_number = some 1) :
    collectTopic base_url tid seen (p :: ps) = collectTopic base_url tid seen ps ∧
    ∀ raw', collectTopic base_url tid seen ({ p with raw := raw' } :: ps) =
      collectTopic base_url tid seen ps := by
  constructor
  · rw [collectTopic]
    simp [postCandidate, h]
  · intro raw'
    rw [collectTopic]
    simp [postCandidate, h]

/-- Closed instantiation of `post_one_skipped`: post number 1 contributes
nothing, whatever its body. -/
theorem post_one_skipped_witness :
    collectTopic "B" 42 0
        [{ post_number := some 1, raw := some "# T", created_at := some "t" }] =
      collectTopic "B" 42 0 [] ∧
    collectTopic "B" 42 0
        [{ post_number := some 1, raw := some "# Another", created_at := some "t" }] =
      collectTopic "B" 42 0 [] :=
  ⟨(post_one_skipped "B" 42 0
      { post_number := some 1, raw := some "# T", created_at := some "t" } [] rfl).1,
   (post_one_skipped "B" 42 0
      { post_number := some 1, raw := some "# T", created_at := some "t" } [] rfl).2
     (some "# Another")⟩

/-- C6: when `new_candidates` is empty, lines 124–125 compute the published
list from `all_candidates` alone; the previous marquee has no influence on
the result. -/
theorem no_new_candidates_ignores_marquee (allC : List Pair)
    (m m' : List String) :
    selectDesired [] allC m = uniq_limit allC 7 ∧
    selectDesired [] allC m = selectDesired [] allC m' :=
  ⟨rfl, rfl⟩

/-- C10: a post with no `post_number` field defaults to post number 0: it is
not filtered like post 1 and its headline (if any) joins `all_candidates`;
it never joins `new_candidates` (0 exceeds no `Nat` checkpoint); and it
contributes 0 to the maximum used on line 108. -/
theorem post_number_default_zero (base_url : String) (tid seen : Nat)
    (p : Post) (ps : List Post) (title : String)
    (h1 : p.post_number = none)
    (h2 : extractHeadline (p.raw.getD "") = some title) :
    (collectTopic base_url tid seen (p :: ps)).1 =
      (some (p.created_at.getD ""), mkItem (mkUrl base_url tid 0) title) ::
        (collectTopic base_url tid seen ps).1 ∧
    (collectTopic base_url tid seen (p :: ps)).2 =
      (collectTopic base_url tid seen ps).2 ∧
    maxPostNumber p ps =
      ps.foldl (fun m q => max m (q.post_number.getD 0)) 0 := by
  have hpc : postCandidate base_url tid p =
      some (0, (some (p.created_at.getD ""), mkItem (mkUrl base_url tid 0) title)) := by
    rw [postCandidate]
    simp [h1, h2]
  refine ⟨?_, ?_, ?_⟩
  · rw [collectTopic, hpc]
  · rw [collectTopic, hpc]
    simp
  · rw [maxPostNumber, h1]
    simp

/-- Closed instantiation of `post_number_default_zero`. -/
theorem post_number_default_zero_witness :
    (collectTopic "B" 7 3
        [{ post_number := none, raw := some "# T", created_at := some "ts" }]).1 =
      (some "ts", mkItem (mkUrl "B" 7 0) "T") :: (collectTopic "B" 7 3 []).1 ∧
    (collectTopic "B" 7 3
        [{ post_number := none, raw := some "# T", created_at := some "ts" }]).2 =
      (collectTopic "B" 7 3 []).2 ∧
    maxPostNumber { post_number := none, raw := some "# T", created_at := some "ts" } [] =
      List.foldl (fun (m : Nat) (q : Post) => max m (q.post_number.getD 0)) 0 [] :=
  post_number_default_zero "B" 7 3
    { post_number := none, raw := some "# T", created_at := some "ts" } [] "T"
    rfl (by decide)

/-- C4 (counterexample): the heading regex accepts any whitespace after the
`#`, not only spaces: a line made of `#`, a tab and text has no space after
the `#` yet yields a headline, contradicting "'#' with no space after it
never matches". -/
theorem heading_tab_cex :
    extractHeadline "#\tTab Title" = some "Tab Title" ∧
    ("#\tTab Title").data.get? 1 = some '\t' ∧ '\t' ≠ ' ' :=
  ⟨rfl, rfl, by decide⟩

/-- C4 (amended): a stripped line matches `HEADING` exactly when it is one
`#`, then one or more whitespace characters (space, tab or other Python
whitespace — not only spaces), then non-empty content, which is returned;
two or more leading `#` or a non-whitespace character after `#` never
match; and the extractor scans the lines in order, returning the first
match (trimmed, skipping the post if no line matches). -/
theorem heading_extractor_spec :
    (∀ rest : List Char, headingMatch (String.mk ('#' :: '#' :: rest)) = none) ∧
    (∀ (c : Char) (rest : List Char), isPySpace c = false →
      headingMatch (String.mk ('#' :: c :: rest)) = none) ∧
    (∀ w r : List Char, w ≠ [] → (∀ c ∈ w, isPySpace c = true) →
      r ≠ [] → (∀ c0, r.head? = some c0 → isPySpace c0 = false) →
      headingMatch (String.mk ('#' :: (w ++ r))) = some (String.mk r)) ∧
    (∀ raw, (∀ line ∈ pySplitlines raw, headingMatch (pyStrip line) = none) →
      extractHeadline raw = none) ∧
    (∀ raw pre line post g, pySplitlines raw = pre ++ line :: post →
      (∀ l ∈ pre, headingMatch (pyStrip l) = none) →
      headingMatch (pyStrip line) = some g →
      extractHeadline raw = if pyStrip g = "" then none else some (pyStrip g)) := by
  refine ⟨?_, ?_, ?_, ?_, ?_⟩
  · intro rest
    rw [headingMatch]
    simp [List.takeWhile_cons, show isPySpace '#' = false from by decide]
  · intro c rest hc
    rw [headingMatch]
    simp [List.takeWhile_cons, hc]
  · intro w r hw hws hr hrhead
    have hsplit := takeWhile_dropWhile_append w r hws hrhead
    rw [headingMatch]
    simp only [hsplit.1, hsplit.2]
    rw [if_neg hw, if_pos hr]
  · intro raw hall
    rw [extractHeadline, List.findSome?_eq_none_iff.mpr hall]
  · intro raw pre line post g hsplit hpre hline
    rw [extractHeadline, hsplit, findSome?_first _ pre line post g hpre hline]

/-- Closed instantiation of `heading_extractor_spec` on concrete lines and
posts. -/
theorem heading_extractor_spec_witness :
    headingMatch (String.mk ['#', '#', 'a']) = none ∧
    headingMatch (String.mk ['#', 'x']) = none ∧
    headingMatch (String.mk ['#', ' ', 'H', 'i']) = some (String.mk ['H', 'i']) ∧
    extractHeadline "plain text" = none ∧
    extractHeadline "junk\n# Real" =
      (if pyStrip "Real" = "" then none else some (pyStrip "Real")) :=
  ⟨heading_extractor_spec.1 ['a'],
   heading_extractor_spec.2.1 'x' [] (by decide),
   heading_extractor_spec.2.2.1 [' '] ['H', 'i'] (by decide) (by decide)
     (by decide) (by intro c0 h; cases h; decide),
   heading_extractor_spec.2.2.2.1 "plain text" (by decide),
   heading_extractor_spec.2.2.2.2 "junk\n# Real" ["junk"] "# Real" [] "Real"
     (by decide) (by decide) (by decide)⟩

/-- C7: whenever a run succeeds, its trace contains the write call pushing
the computed items joined with the literal `|`, and the `save_state` of the
final state (updated checkpoint map, computed list as new marquee) — with
no skip-if-unchanged comparison anywhere, so this holds in particular when
the computed list equals the previous one. -/
theorem always_push_and_save (cfg : Config) (st : St)
    (fetch : Nat → Except Unit (List Post)) (pushOk : Bool)
    (tr : List Eff) (st' : St)
    (h : main cfg st fetch pushOk = (tr, .ok st')) :
    Eff.push (String.intercalate "|" st'.marquee) ∈ tr ∧ Eff.save st' ∈ tr := by
  rw [main] at h
  cases hak : cfg.api_key with
  | none => simp only [hak] at h; simp at h
  | some ak =>
    simp only [hak] at h
    cases hau : cfg.api_username with
    | none => simp only [hau] at h; simp at h
    | some au =>
      simp only [hau] at h
      cases hts : cfg.topics with
      | none => simp only [hts] at h; simp at h
      | some tids =>
        simp only [hts] at h
        rcases hrl : runLoop cfg.base_url fetch tids st [] [] [] with ⟨trL, res⟩
        rw [hrl] at h
        cases res with
        | error e => simp at h
        | ok triple =>
          obtain ⟨st1, allC, newC⟩ := triple
          have htr := runAfterLoop_ok h
          rw [htr]
          simp

/-- Closed instantiation of `always_push_and_save` on a successful run whose
computed list equals the previous marquee (both empty): the push and the
save still happen. -/
theorem always_push_and_save_witness :
    Eff.push (String.intercalate "|" st0.marquee) ∈
      [Eff.push "", Eff.save st0] ∧
    Eff.save st0 ∈ [Eff.push "", Eff.save st0] :=
  always_push_and_save { cfgFull with topics := some [] } st0
    (fun _ => .ok []) true [Eff.push "", Eff.save st0] st0 rfl

/-- C8: a run that ends in an exception (read or write transport failure,
`KeyError`, `TypeError`) never reaches `save_state`: no save effect occurs,
so the on-disk state record keeps its pre-run value. -/
theorem error_no_save (cfg : Config) (st : St)
    (fetch : Nat → Except Unit (List Post)) (pushOk : Bool)
    (tr : List Eff) (e : PyErr)
    (h : main cfg st fetch pushOk = (tr, .error e)) :
    ∀ s : St, Eff.save s ∉ tr := by
  intro s hs
  rw [main] at h
  cases hak : cfg.api_key with
  | none =>
    simp only [hak] at h
    injection h with h1 h2
    rw [← h1] at hs
    simp at hs
  | some ak =>
    simp only [hak] at h
    cases hau : cfg.api_username with
    | none =>
      simp only [hau] at h
      injection h with h1 h2
      rw [← h1] at hs
      simp at hs
    | some au =>
      simp only [hau] at h
      cases hts : cfg.topics with
      | none =>
        simp only [hts] at h
        injection h with h1 h2
        rw [← h1] at hs
        simp at hs
      | some tids =>
        simp only [hts] at h
        rcases hrl : runLoop cfg.base_url fetch tids st [] [] [] with ⟨trL, res⟩
        rw [hrl] at h
        have htrL : ∀ x ∈ trL, x ∈ ([] : List Eff) ∨ ∃ t, x = Eff.fetch t := by
          intro x hx
          exact runLoop_trace cfg.base_url fetch tids st [] [] [] x
            (by rw [hrl]; exact hx)
        cases res with
        | error e' =>
          injection h with h1 h2
          rw [← h1] at hs
          rcases htrL _ hs with hc | ⟨t, hc⟩
          · simp at hc
          · simp at hc
        | ok triple =>
          obtain ⟨st1, allC, newC⟩ := triple
          rcases runAfterLoop_error h _ hs with hc | ⟨v, hc⟩
          · rcases htrL _ hc with hc' | ⟨t, hc'⟩
            · simp at hc'
            · simp at hc'
          · simp at hc

/-- Closed instantiation of `error_no_save`: a failing read call aborts the
run with only the fetch in the trace, and a failing write call aborts it
with the fetch and the push — no save either way. -/
theorem error_no_save_witness :
    Eff.save st0 ∉ [Eff.fetch 42] ∧
    Eff.save st0 ∉ [Eff.fetch 42, Eff.push ""] :=
  ⟨error_no_save cfgFull st0 (fun _ => .error ()) true [Eff.fetch 42]
     .transportError rfl st0,
   error_no_save cfgFull st0 (fun _ => .ok []) false
     [Eff.fetch 42, Eff.push ""] .transportError rfl st0⟩

/-- C9 (counterexample): a config missing only `component_id` does NOT fail
before the network calls: the run fetches topic 42 and only then raises
`KeyError` when `update_ticker` builds the URL. -/
theorem missing_component_id_fetches_cex :
    cfgNoComp.component_id = none ∧
    main cfgNoComp st0 (fun _ => .ok []) true =
      ([Eff.fetch 42], .error .keyError) :=
  ⟨rfl, rfl⟩

/-- C9 (amended): a config missing `base_url`, `api_key`, `api_username` or
`topics` fails with `KeyError` before any network call (empty effect
trace); a config missing only `component_id` also fails the run, but only
at the publish step, after the read calls have been issued. -/
theorem config_missing_field_spec (cfg : Config) (st : St)
    (fetch : Nat → Except Unit (List Post)) (pushOk : Bool) :
    ((cfg.base_url = none ∨ cfg.api_key = none ∨ cfg.api_username = none ∨
        cfg.topics = none) →
      main cfg st fetch pushOk = ([], .error .keyError)) ∧
    (cfg.component_id = none →
      ∃ e, (main cfg st fetch pushOk).2 = .error e) := by
  constructor
  · intro hmiss
    cases hak : cfg.api_key with
    | none => rw [main, hak]
    | some ak =>
      cases hau : cfg.api_username with
      | none => rw [main, hak, hau]
      | some au =>
        cases hts : cfg.topics with
        | none => rw [main, hak, hau, hts]
        | some tids =>
          have hbu : cfg.base_url = none := by
            rcases hmiss with h | h | h | h
            · exact h
            · rw [h] at hak; cases hak
            · rw [h] at hau; cases hau
            · rw [h] at hts; cases hts
          cases tids with
          | nil =>
            rw [main, hak, hau, hts]
            simp only [runLoop, runAfterLoop, selectDesired, uniq_limit,
              pySorted, hbu]
            rfl
          | cons t ts =>
            rw [main, hak, hau, hts]
            simp only [runLoop, hbu]
  · intro hcomp
    cases hak : cfg.api_key with
    | none => exact ⟨.keyError, by rw [main, hak]⟩
    | some ak =>
      cases hau : cfg.api_username with
      | none => exact ⟨.keyError, by rw [main, hak, hau]⟩
      | some au =>
        cases hts : cfg.topics with
        | none => exact ⟨.keyError, by rw [main, hak, hau, hts]⟩
        | some tids =>
          rcases hrl : runLoop cfg.base_url fetch tids st [] [] [] with ⟨trL, res⟩
          cases res with
          | error e => exact ⟨e, by simp only [main, hak, hau, hts, hrl]⟩
          | ok triple =>
            obtain ⟨st1, allC, newC⟩ := triple
            rcases hsel : selectDesired newC allC st1.marquee with e | desired
            · exact ⟨e, by simp only [main, hak, hau, hts, hrl, runAfterLoop, hsel]⟩
            · cases hbu : cfg.base_url with
              | none =>
                refine ⟨.keyError, ?_⟩
                rw [hbu] at hrl
                simp only [main, hak, hau, hts, hbu, hrl, runAfterLoop, hsel]
              | some bu =>
                refine ⟨.keyError, ?_⟩
                rw [hbu] at hrl
                simp only [main, hak, hau, hts, hbu, hrl, runAfterLoop, hsel,
                  hcomp]

/-- Closed instantiation of `config_missing_field_spec`: missing `api_key`
fails with no effects at all; missing `component_id` fails the run. -/
theorem config_missing_field_spec_witness :
    main cfgNoKey st0 (fun _ => .ok []) true = ([], .error .keyError) ∧
    ∃ e, (main cfgNoComp st0 (fun _ => .ok []) true).2 = .error e :=
  ⟨(config_missing_field_spec cfgNoKey st0 (fun _ => .ok []) true).1
     (Or.inr (Or.inl rfl)),
   (config_missing_field_spec cfgNoComp st0 (fun _ => .ok []) true).2 rfl⟩

end NewsTicker
